import Mathlib

/-!
Verification of the pjatkbot schedule bot core against its specification.

The Rust source is shallowly embedded: machine integers and timestamps
become `Int` (seconds since the Unix epoch for `DateTime<Utc>`, whole days
for `NaiveDate`), Mongo ObjectIds become `Nat`, collections become
`List`, and fallible code returns `Except` or `Option`. Each definition
is annotated with the source file and item it embeds.
-/

namespace PjatkBot

/-! ## Data model (src/parsing/types.rs, src/db.rs) -/

/-- Embeds `ClassKind` from src/parsing/types.rs. -/
inductive ClassKind
  | Lecture
  | Seminar
  | DiplomaThesis
deriving DecidableEq

/-- Embeds `TimeRange` from src/parsing/types.rs; `DateTime<Utc>` becomes
seconds since the Unix epoch. -/
structure TimeRange where
  start : Int
  «end» : Int
deriving DecidableEq

/-- Embeds `Group` from src/parsing/types.rs; `#[serde(transparent)]`, so a
group serializes as its bare code string. -/
structure Group where
  code : String
deriving DecidableEq

/-- Embeds `ClassPlace` from src/parsing/types.rs. -/
inductive ClassPlace
  | Online
  | OnSite (room : String)
deriving DecidableEq

/-- Embeds `Class` from src/parsing/types.rs. Rust derives `PartialEq`,
`Eq` and `Hash` over all content fields, which is plain structural
equality here. -/
structure Class where
  class_id : String
  name : String
  code : String
  kind : ClassKind
  lecturer : String
  range : TimeRange
  place : ClassPlace
  groups : List Group
deriving DecidableEq

/-- Embeds `OID<T>` from src/db.rs: a storage id (`ObjectId`, modeled as
`Nat`) paired with the content. The Rust `Hash`, `PartialEq` and `Eq`
impls for `OID<T>` delegate to `data` and ignore `id`; the embedding
keeps full structural equality and models the content-only comparisons
explicitly at each use site. -/
structure OID (T : Type) where
  id : Nat
  data : T
deriving DecidableEq

/-- Embeds `Role` from src/db.rs. -/
inductive Role
  | User
  | BetaTester
  | Admin
deriving DecidableEq

/-- Embeds `Language` from src/db.rs. -/
inductive Language
  | English
  | Polish
  | Ukrainian
  | Russian
deriving DecidableEq

/-- Embeds `NotificationConstraint` from src/db.rs: a `std::time::Duration`
lead time, modeled as a number of seconds. -/
structure NotificationConstraint where
  secs : Nat
deriving DecidableEq

/-- Embeds `User` from src/db.rs. `telegram_id` is a teloxide `ChatId`
(an i64); the field serializes under the name `id`. `constraints` is a
`HashSet` in Rust; it is modeled as a list, with iteration order fixed to
list order (the claims proved below do not depend on that order). -/
structure User where
  telegram_id : Int
  join_date : Int
  role : Role
  groups : List Group
  language : Language
  constraints : List NotificationConstraint
deriving DecidableEq

/-- Embeds `Notification` from src/db.rs (a PendingSend row). -/
structure Notification where
  related_user : Nat
  related_class : Nat
  related_user_id : Int
  fire_date : Int
deriving DecidableEq

/-! ## Class-kind deduction (src/parsing/pjatk/deduct.rs) -/

/-- Embeds `PjatkClass` from src/parsing/pjatk.rs: the raw strings scraped
from a detail panel. -/
structure PjatkClass where
  name : String
  code : String
  kind : String
  groups : String
  lecturer : String
  room : String
  fromTime : String
  toTime : String
  date : String
  is_online : Bool
deriving DecidableEq

/-- Embeds `deduct_kind` from src/parsing/pjatk/deduct.rs. The Rust match
maps a known kind string to a `ClassKind` and panics on anything else;
the panic (a hard failure aborting the deduction of the day) is `none`. -/
def deduct_kind (kind : String) : Option ClassKind :=
  if kind = "Wykład" ∨ kind = "Lektorat" then some ClassKind.Lecture
  else if kind = "Ćwiczenia" then some ClassKind.Seminar
  else if kind = "Projekt dyplomowy" then some ClassKind.DiplomaThesis
  else none

/-! ## Overview scraping skeleton (src/parsing/pjatk.rs, parse_day_raw) -/

/-- Embeds `ParseError` from src/parsing/pjatk.rs (payloads dropped). -/
inductive ParseError
  | Http
  | ParsingFailed
  | BodyAbrupted
deriving DecidableEq

/-- One overview `<td>` whose id ends in the marker suffix: the pair of
its id attribute and its style attribute, as collected by
`parse_day_raw`. -/
structure OverviewCell where
  cellId : String
  style : String
deriving DecidableEq

/-- Loop body of `parse_day_raw` over the collected overview cells: for
each cell one detail request is issued (`parse_detail`); its result is an
error (propagated), a reservation (`none`, skipped) or a class (pushed).
The second component counts detail requests issued. -/
def parse_day_cells (detail : String → Except ParseError (Option PjatkClass)) :
    List OverviewCell → List PjatkClass → Nat → Except ParseError (List PjatkClass) × Nat
  | [], acc, n => (Except.ok acc.reverse, n)
  | c :: cs, acc, n =>
    match detail c.cellId with
    | Except.error e => (Except.error e, n + 1)
    | Except.ok none => parse_day_cells detail cs acc (n + 1)
    | Except.ok (some k) => parse_day_cells detail cs (k :: acc) (n + 1)

/-- Embeds the overview-scraping tail of `Parser::parse_day_raw`
(src/parsing/pjatk.rs lines 306 to 327). The fetched overview document is
abstracted to the result of the selector `#ZajeciaTable > tbody`:
`none` when the table (with a tbody) is absent, `some cells` with the
collected class cells otherwise. The source wraps the selector miss in
the `hpe!` macro, which returns `ParseError::ParsingFailed`; the detail
requests are issued only afterwards, one per cell. The second component
is the number of detail-panel requests issued. -/
def parse_day_raw (table : Option (List OverviewCell))
    (detail : String → Except ParseError (Option PjatkClass)) :
    Except ParseError (List PjatkClass) × Nat :=
  match table with
  | none => (Except.error ParseError.ParsingFailed, 0)
  | some cells => parse_day_cells detail cells [] 0

/-! ## Claim C6: class-kind normalizer -/

/-- Claim C6, counterexample. The claim states that the normalizer maps
the string "Internet - ćwiczenia" to Seminar; in the source that string
reaches the catch-all panic arm of `deduct_kind`, a hard failure. -/
theorem C6_counterexample :
    deduct_kind "Internet - ćwiczenia" ≠ some ClassKind.Seminar := by
  decide

/-- Claim C6, amended: `deduct_kind` maps "Wykład" and "Lektorat" to
Lecture, "Ćwiczenia" (only) to Seminar, "Projekt dyplomowy" to
DiplomaThesis, and every other input string, including
"Internet - ćwiczenia", is a hard parse failure aborting the deduction of
the day. -/
theorem C6_deduct_kind_table :
    deduct_kind "Wykład" = some ClassKind.Lecture ∧
    deduct_kind "Lektorat" = some ClassKind.Lecture ∧
    deduct_kind "Ćwiczenia" = some ClassKind.Seminar ∧
    deduct_kind "Projekt dyplomowy" = some ClassKind.DiplomaThesis ∧
    deduct_kind "Internet - ćwiczenia" = none ∧
    ∀ s : String,
      s ∉ (["Wykład", "Lektorat", "Ćwiczenia", "Projekt dyplomowy"] : List String) →
      deduct_kind s = none := by
  refine ⟨by decide, by decide, by decide, by decide, by decide, ?_⟩
  intro s hs
  simp only [List.mem_cons, List.not_mem_nil, or_false, not_or] at hs
  obtain ⟨h1, h2, h3, h4⟩ := hs
  simp [deduct_kind, h1, h2, h3, h4]

/-- Claim C6, witness for the amended theorem: the catch-all arm at a
concrete unknown kind string. -/
theorem C6_witness : deduct_kind "Lektorat ABC" = none :=
  C6_deduct_kind_table.2.2.2.2.2 "Lektorat ABC" (by decide)

/-! ## Claim C7: missing overview table -/

/-- Claim C7, counterexample. The claim states that a missing
`ZajeciaTable` element makes `parse_day_raw` return successfully with the
empty list; in the source the selector miss goes through `hpe!`, which
returns `ParseError::ParsingFailed` instead. Shown at a concrete detail
oracle. -/
theorem C7_counterexample :
    (parse_day_raw none (fun _ => Except.ok none)).1 ≠ Except.ok [] := by
  simp [parse_day_raw]

/-- Claim C7, amended: when the fetched overview contains no
`ZajeciaTable` element with a tbody, `parse_day_raw` returns the hard
error `ParsingFailed` (not an empty day) and issues no detail-panel
requests; a present table with zero class cells is what yields the empty
list, also with no detail requests. -/
theorem C7_missing_table :
    ∀ detail : String → Except ParseError (Option PjatkClass),
      parse_day_raw none detail = (Except.error ParseError.ParsingFailed, 0) ∧
      parse_day_raw (some []) detail = (Except.ok [], 0) := by
  intro detail
  exact ⟨rfl, rfl⟩

/-! ## Notification planner (src/notifications/manager.rs) and dispatcher
(src/notifications.rs). All `Utc::now()` reads inside one operation are
modeled as a single instant `now`. Mongo collections are lists; a find
returns rows in collection order. -/

/-- Embeds `NotificationEvent` from src/notifications.rs. The
`affected_users` HashSet is modeled as a duplicate-free list in insertion
order. -/
inductive NotificationEvent
  | ClassDeleted (cls : Class) (affected_users : List Int)
  | Scheduled (cls : Class) (user_id : Int)
deriving DecidableEq

/-- Embeds `UpdateEvent` from src/notifications.rs. -/
inductive UpdateEvent
  | ClassRemoved (cls : OID Class)
  | ClassAdded (cls : OID Class)
  | UserUpdate (user : OID User)
deriving DecidableEq

/-- Mongo `find_one_and_replace(filter, replacement)` on the notifications
collection, with the filter an exact document: replaces the first row
equal to the filter document. The source does not set the `upsert`
option, whose driver default is false, so when no row matches nothing is
written. -/
def find_one_and_replace (coll : List Notification) (docFilter repl : Notification) :
    List Notification :=
  match coll with
  | [] => []
  | r :: rest =>
    if r = docFilter then repl :: rest else r :: find_one_and_replace rest docFilter repl

/-- Embeds `NotificationManager::upsert_notification`
(src/notifications/manager.rs lines 54 to 60): `find_one_and_replace`
with the serialized notification as both filter and replacement. -/
def upsert_notification (coll : List Notification) (n : Notification) : List Notification :=
  find_one_and_replace coll n n

/-- Mongo equality filter `{field: v}` applied to a serialized `User`
document. A user document carries the fields `id`, `join_date`, `role`,
`groups` (an array of bare code strings, since `Group` is
serde-transparent), `language` and `constraints`; an equality filter on
an array field matches when the array contains the value, and a filter on
an absent field name (the source also queries `"group"`, which no user
document has) matches nothing. -/
def userMatchesField (u : User) (field : String) (v : String) : Bool :=
  if field = "groups" then (u.groups.map Group.code).contains v
  else false

/-- Mongo equality filter `{"groups": v}` on a serialized `Class`
document: its `groups` array contains the code `v`. -/
def classMatchesGroups (c : Class) (v : String) : Bool :=
  (c.groups.map Group.code).contains v

/-- HashSet insert for the `seen_users` set of `handle_class_add`. -/
def insertSeen (seen : List Nat) (id : Nat) : List Nat :=
  if seen.contains id then seen else seen ++ [id]

/-- HashSet insert for the `final_users_affected` set of
`handle_class_removal`. -/
def insertChatId (s : List Int) (v : Int) : List Int :=
  if s.contains v then s else s ++ [v]

/-- Embeds `NotificationManager::handle_class_add`
(src/notifications/manager.rs lines 62 to 106). For each group of the
class, every user whose `groups` array contains the code is visited; a
user already in `seen_users` is skipped; per constraint, the fire time is
`class.start - constraint` and a fire time before `now` is skipped;
otherwise the row is passed to `upsert_notification` and the user id is
added to `seen_users`. -/
def handle_class_add (cls : OID Class) (users : List (OID User)) (now : Int)
    (notifs : List Notification) : List Notification :=
  (cls.data.groups.foldl (fun (st : List Notification × List Nat) g =>
    (users.filter (fun u => userMatchesField u.data "groups" g.code)).foldl
      (fun st u =>
        if st.2.contains u.id then st
        else
          u.data.constraints.foldl (fun st con =>
            let notification_time := cls.data.range.start - (con.secs : Int)
            if notification_time < now then st
            else
              (upsert_notification st.1
                { related_user := u.id, related_class := cls.id,
                  related_user_id := u.data.telegram_id,
                  fire_date := notification_time },
               insertSeen st.2 u.id)) st) st)
    (notifs, [])).1

/-- Embeds `NotificationManager::handle_class_removal`
(src/notifications/manager.rs lines 108 to 128). For each group of the
class the source queries the users collection with the filter
`doc! {"group": code}`: note the field name `"group"`, not `"groups"`.
The affected chat ids are collected into a set and returned in a
`ClassDeleted` event. -/
def handle_class_removal (cls : OID Class) (users : List (OID User)) : NotificationEvent :=
  let final_users_affected := cls.data.groups.foldl (fun acc g =>
    (users.filter (fun u => userMatchesField u.data "group" g.code)).foldl
      (fun acc u => insertChatId acc u.data.telegram_id) acc) []
  NotificationEvent.ClassDeleted cls.data final_users_affected

/-- Affected-users component of a planner event. -/
def affected_of : NotificationEvent → List Int
  | NotificationEvent.ClassDeleted _ us => us
  | NotificationEvent.Scheduled _ _ => []

/-- Embeds `NotificationManager::handle_user_update`
(src/notifications/manager.rs lines 215 to 248): first `delete_many` of
all rows with `related_user = user.id`, then for every group of the user
and every class whose `groups` contains the code (with no future filter)
and every constraint, skip fire times before `now` and pass the rest to
`upsert_notification`. -/
def handle_user_update (user : OID User) (classes : List (OID Class)) (now : Int)
    (notifs : List Notification) : List Notification :=
  let afterDelete := notifs.filter (fun n => !(n.related_user == user.id))
  user.data.groups.foldl (fun acc g =>
    (classes.filter (fun c => classMatchesGroups c.data g.code)).foldl (fun acc cls =>
      user.data.constraints.foldl (fun acc con =>
        let new_time := cls.data.range.start - (con.secs : Int)
        if new_time < now then acc
        else
          upsert_notification acc
            { related_user := user.id, related_class := cls.id,
              related_user_id := user.data.telegram_id,
              fire_date := new_time }) acc) acc) afterDelete

/-- Embeds `NotificationManager::remove_old_notifications`
(src/notifications/manager.rs lines 48 to 52): `delete_many` of every row
with `fire_date < now` (strict). -/
def remove_old_notifications (notifs : List Notification) (now : Int) : List Notification :=
  notifs.filter (fun n => !decide (n.fire_date < now))

/-- Embeds `NotificationManager::full_resync`
(src/notifications/manager.rs lines 130 to 213). The aggregation unwinds
each user over its groups and looks up the classes whose `groups` array
contains the unwound code; per unwound document, empty constraint sets
are skipped, classes starting before `now` are skipped, fire times before
`now` are skipped, and a row is inserted (`insert_one`) only when
`find_one` of the exact document finds nothing. Finally
`remove_old_notifications` sweeps rows with `fire_date < now`. -/
def full_resync (users : List (OID User)) (classes : List (OID Class)) (now : Int)
    (notifs : List Notification) : List Notification :=
  let afterInserts := users.foldl (fun acc u =>
    u.data.groups.foldl (fun acc g =>
      if u.data.constraints.isEmpty then acc
      else
        (classes.filter (fun c => classMatchesGroups c.data g.code)).foldl (fun acc cls =>
          if cls.data.range.start < now then acc
          else
            u.data.constraints.foldl (fun acc con =>
              let new_time := cls.data.range.start - (con.secs : Int)
              if new_time < now then acc
              else
                let n : Notification :=
                  { related_user := u.id, related_class := cls.id,
                    related_user_id := u.data.telegram_id, fire_date := new_time }
                if acc.contains n then acc else acc ++ [n]) acc) acc) acc) notifs
  remove_old_notifications afterInserts now

/-- Embeds `Propagator::try_find_new` (src/notifications.rs lines 79 to
108). The query document `fire_date <= now` is built once with a single
timestamp and reused verbatim: `find(query.clone())` enumerates the due
rows (each resolving its class; unresolvable rows are skipped), then
`delete_many(query)` removes every row matching that same predicate.
Returns the produced events and the remaining collection. -/
def try_find_new (notifs : List Notification) (classes : List (OID Class)) (now : Int) :
    List NotificationEvent × List Notification :=
  let due := notifs.filter (fun n => decide (n.fire_date ≤ now))
  let events := due.filterMap (fun n =>
    (classes.find? (fun c => c.id == n.related_class)).map
      (fun c => NotificationEvent.Scheduled c.data n.related_user_id))
  let remaining := notifs.filter (fun n => !decide (n.fire_date ≤ now))
  (events, remaining)

/-! ## Planner loop (src/notifications/manager.rs, NotificationManager::work) -/

/-- One inbound cause processed by the select loop of
`NotificationManager::work`: either a tick of `resync_interval` or a
received batch of update events. -/
inductive LoopEvent
  | resyncTick
  | message (msgs : List UpdateEvent)

/-- Planner state: the notifications collection, the outbound events sent
so far, and a ghost counter of `full_resync` invocations. -/
structure PlannerState where
  notifs : List Notification
  outbox : List NotificationEvent
  resyncs : Nat

/-- Embeds `NotificationManager::handle_message`
(src/notifications/manager.rs lines 250 to 264), together with the send
of the returned event in the loop. -/
def handle_message (users : List (OID User)) (classes : List (OID Class)) (now : Int)
    (st : PlannerState) (msg : UpdateEvent) : PlannerState :=
  match msg with
  | UpdateEvent.ClassRemoved cls =>
    { st with outbox := st.outbox ++ [handle_class_removal cls users] }
  | UpdateEvent.UserUpdate u =>
    { st with notifs := handle_user_update u classes now st.notifs }
  | UpdateEvent.ClassAdded cls =>
    { st with notifs := handle_class_add cls users now st.notifs }

/-- One iteration of the select loop in `NotificationManager::work`
(src/notifications/manager.rs lines 278 to 315). The arm awaiting
`resync_interval.tick()` is commented out in the source (lines 280 to
289), so a tick of the interval is not handled and changes nothing; only
the message arm is live. -/
def planner_loop_step (users : List (OID User)) (classes : List (OID Class)) (now : Int)
    (st : PlannerState) (e : LoopEvent) : PlannerState :=
  match e with
  | LoopEvent.resyncTick => st
  | LoopEvent.message msgs => msgs.foldl (handle_message users classes now) st

/-- Embeds `NotificationManager::work` (src/notifications/manager.rs
lines 266 to 320): one `full_resync` before the loop starts, then the
select loop over whatever causes arrive. -/
def planner_work (users : List (OID User)) (classes : List (OID Class)) (now : Int)
    (notifs0 : List Notification) (events : List LoopEvent) : PlannerState :=
  events.foldl (planner_loop_step users classes now)
    { notifs := full_resync users classes now notifs0, outbox := [], resyncs := 1 }

/-! ## Generic fold lemmas -/

/-- Invariant preservation through `List.foldl`. -/
theorem foldl_preserves {α β : Type} (P : α → Prop) (f : α → β → α)
    (h : ∀ a b, P a → P (f a b)) :
    ∀ (l : List β) (init : α), P init → P (l.foldl f init) := by
  intro l
  induction l with
  | nil => intro init hi; exact hi
  | cons b bs ih => intro init hi; exact ih (f init b) (h init b hi)

/-- A fold whose step fixes every state is the identity. -/
theorem foldl_fixed {α β : Type} (f : α → β → α) (init : α)
    (h : ∀ b, f init b = init) :
    ∀ l : List β, l.foldl f init = init := by
  intro l
  induction l with
  | nil => rfl
  | cons b bs ih => simp only [List.foldl_cons, h b, ih]

/-- The degenerate upsert: `find_one_and_replace` with the same document
as filter and replacement, and the `upsert` option left at its default
of false, never changes the collection. -/
theorem upsert_notification_eq (coll : List Notification) (n : Notification) :
    upsert_notification coll n = coll := by
  unfold upsert_notification
  induction coll with
  | nil => rfl
  | cons r rest ih =>
    unfold find_one_and_replace
    by_cases h : r = n
    · simp [h]
    · simp [h, ih]

/-- Because `upsert_notification` never writes, `handle_class_add` leaves
the notifications collection untouched. -/
theorem handle_class_add_id (cls : OID Class) (users : List (OID User)) (now : Int)
    (notifs : List Notification) :
    handle_class_add cls users now notifs = notifs := by
  unfold handle_class_add
  refine foldl_preserves (fun st : List Notification × List Nat => st.1 = notifs) _ ?_ _ _ rfl
  intro st g hst
  refine foldl_preserves (fun st : List Notification × List Nat => st.1 = notifs) _ ?_ _ _ hst
  intro st u hst
  dsimp only
  split
  · exact hst
  · refine foldl_preserves (fun st : List Notification × List Nat => st.1 = notifs) _ ?_ _ _ hst
    intro st con hst
    dsimp only
    split
    · exact hst
    · simpa [upsert_notification_eq] using hst

/-- Because `upsert_notification` never writes, `handle_user_update` only
performs its initial `delete_many`. -/
theorem handle_user_update_eq (user : OID User) (classes : List (OID Class)) (now : Int)
    (notifs : List Notification) :
    handle_user_update user classes now notifs
      = notifs.filter (fun n => !(n.related_user == user.id)) := by
  unfold handle_user_update
  refine foldl_preserves
    (fun acc => acc = notifs.filter (fun n => !(n.related_user == user.id))) _ ?_ _ _ rfl
  intro acc g hacc
  refine foldl_preserves
    (fun acc => acc = notifs.filter (fun n => !(n.related_user == user.id))) _ ?_ _ _ hacc
  intro acc cls hacc
  refine foldl_preserves
    (fun acc => acc = notifs.filter (fun n => !(n.related_user == user.id))) _ ?_ _ _ hacc
  intro acc con hacc
  dsimp only
  split
  · exact hacc
  · rw [upsert_notification_eq]; exact hacc

/-! ## Claim C2: dispatcher is at-most-once -/

/-- Claim C2, confirmed. After a dispatcher tick, the remaining
notifications collection is exactly the complement of the predicate
`fire_date <= observed_now` that the select used (the batched
`delete_many` reuses the very same query document), so no row with
`fire_date <= observed_now` remains. -/
theorem C2_dispatcher_at_most_once (notifs : List Notification)
    (classes : List (OID Class)) (now : Int) :
    (try_find_new notifs classes now).2
        = notifs.filter (fun n => !decide (n.fire_date ≤ now)) ∧
    (try_find_new notifs classes now).2.all (fun n => decide (now < n.fire_date)) = true := by
  constructor
  · rfl
  · rw [show (try_find_new notifs classes now).2
        = notifs.filter (fun n => !decide (n.fire_date ≤ now)) from rfl]
    rw [List.all_eq_true]
    intro n hn
    have hp := List.of_mem_filter hn
    simp only [Bool.not_eq_true', decide_eq_false_iff_not, not_le] at hp
    simpa using hp

/-! ## Claim C3: no past fire times inserted -/

/-- User for the fire-time boundary counterexample: one group, a single
one-hour lead time. -/
def C3user : OID User :=
  ⟨1, { telegram_id := 7, join_date := 0, role := Role.User, groups := [⟨"A"⟩],
        language := Language.English, constraints := [⟨3600⟩] }⟩

/-- Class for the fire-time boundary counterexample: starts exactly one
hour after the observation instant 1000, so the computed fire time is
exactly 1000. -/
def C3class : OID Class :=
  ⟨2, { class_id := "c1", name := "N", code := "K", kind := ClassKind.Lecture,
        lecturer := "L", range := { start := 4600, «end» := 8200 },
        place := ClassPlace.Online, groups := [⟨"A"⟩] }⟩

/-- Claim C3, counterexample. The source guards insertions with
`new_time < Utc::now()`, a strict comparison, so a row whose computed
fire time equals `now` (satisfying `fire_at <= now`) is inserted by
`full_resync`: right after the insertion path the store holds a row that
is not strictly in the future, contradicting the claim. -/
theorem C3_counterexample :
    (full_resync [C3user] [C3class] 1000 []).all
        (fun n => decide (1000 < n.fire_date)) = false := by
  decide

/-- Claim C3, amended: the insertion paths skip only fire times strictly
before `now`; a computed `fire_at < now` is never inserted, so every row
present right after an insertion path either predates the call or has
`fire_at >= now` (for `full_resync`, whose final sweep also removes
strictly past rows, every row has `fire_at >= now`). -/
theorem C3_fire_at_lower_bound :
    ∀ (cls : OID Class) (users : List (OID User)) (user : OID User)
      (classes : List (OID Class)) (now : Int) (notifs : List Notification),
      (handle_class_add cls users now notifs).all
          (fun n => decide (n ∈ notifs) || decide (now ≤ n.fire_date)) = true ∧
      (handle_user_update user classes now notifs).all
          (fun n => decide (n ∈ notifs) || decide (now ≤ n.fire_date)) = true ∧
      (full_resync users classes now notifs).all
          (fun n => decide (now ≤ n.fire_date)) = true := by
  intro cls users user classes now notifs
  refine ⟨?_, ?_, ?_⟩
  · rw [handle_class_add_id, List.all_eq_true]
    intro n hn
    simp [hn]
  · rw [handle_user_update_eq, List.all_eq_true]
    intro n hn
    have := List.mem_of_mem_filter hn
    simp [this]
  · unfold full_resync remove_old_notifications
    rw [List.all_eq_true]
    intro n hn
    have hp := List.of_mem_filter hn
    simp only [Bool.not_eq_true', decide_eq_false_iff_not, not_lt] at hp
    simpa using hp

/-! ## Claim C4: UserUpdate fan-out -/

/-- User for the UserUpdate scenario: constraints of ten minutes and one
hour, one group. -/
def C4user : OID User :=
  ⟨1, { telegram_id := 7, join_date := 0, role := Role.User, groups := [⟨"A"⟩],
        language := Language.English, constraints := [⟨600⟩, ⟨3600⟩] }⟩

/-- First future class of the UserUpdate scenario (starts two hours after
now = 1000). -/
def C4class1 : OID Class :=
  ⟨2, { class_id := "c1", name := "N1", code := "K1", kind := ClassKind.Lecture,
        lecturer := "L", range := { start := 8200, «end» := 11800 },
        place := ClassPlace.Online, groups := [⟨"A"⟩] }⟩

/-- Second future class of the UserUpdate scenario (starts three hours
after now = 1000). -/
def C4class2 : OID Class :=
  ⟨3, { class_id := "c2", name := "N2", code := "K2", kind := ClassKind.Seminar,
        lecturer := "L", range := { start := 11800, «end» := 15400 },
        place := ClassPlace.Online, groups := [⟨"A"⟩] }⟩

/-- Claim C4, code-bug evaluation. With the claimed scenario (two
constraints, exactly two future classes sharing the group, empty
notifications store), `handle_user_update` leaves zero PendingSends, not
four: `upsert_notification` is a `find_one_and_replace` whose `upsert`
option is never enabled, so no insertion ever happens, although the
surrounding code and comments treat it as an upsert. -/
theorem C4_user_update_inserts_nothing :
    handle_user_update C4user [C4class1, C4class2] 1000 [] = [] := by
  decide

/-! ## Claim C5: affected users of a class removal -/

/-- Claim C5, code-bug evaluation. `handle_class_removal` queries users
with the filter field name `"group"`, but user documents only carry a
`"groups"` field (its sibling `handle_class_add` queries `"groups"`), so
the filter matches no user and the emitted `ClassDeleted` event always
carries an empty affected-users set, for every class and user
collection. -/
theorem C5_affected_users_always_empty :
    ∀ (cls : OID Class) (users : List (OID User)),
      affected_of (handle_class_removal cls users) = [] := by
  intro cls users
  unfold handle_class_removal affected_of
  dsimp only
  refine foldl_fixed _ _ ?_ _
  intro g
  have hfil : users.filter (fun u => userMatchesField u.data "group" g.code) = [] := by
    simp [userMatchesField]
  rw [hfil]
  rfl

/-! ## Claim C10: periodic full resync -/

/-- Claim C10, code-bug evaluation. In `NotificationManager::work` the
select arm for `resync_interval.tick()` is commented out, so
`full_resync` runs exactly once, before the loop; however many interval
ticks elapse, no further resync is performed and a tick changes nothing
at all. -/
theorem C10_no_periodic_resync :
    ∀ (users : List (OID User)) (classes : List (OID Class)) (now : Int)
      (notifs0 : List Notification) (events : List LoopEvent),
      (planner_work users classes now notifs0 events).resyncs = 1 ∧
      ∀ st : PlannerState, planner_loop_step users classes now st LoopEvent.resyncTick = st := by
  intro users classes now notifs0 events
  constructor
  · unfold planner_work
    refine foldl_preserves (fun st : PlannerState => st.resyncs = 1) _ ?_ _ _ rfl
    intro st e hst
    cases e with
    | resyncTick => exact hst
    | message msgs =>
      dsimp only [planner_loop_step]
      refine foldl_preserves (fun st : PlannerState => st.resyncs = 1) _ ?_ _ _ hst
      intro st m hst
      cases m <;> simpa [handle_message] using hst
  · intro st
    rfl

/-! ## Portal client hidden state (src/parsing/pjatk/aspemu.rs and
src/parsing/pjatk.rs). The `ASPState` HashMap is modeled as an
association list with HashMap insert semantics (replace the binding when
the key exists, append otherwise); iteration order is irrelevant to the
key-shape invariant proved below. -/

/-- The `starts_with("__")` test on a key, written on the character list
so that it evaluates by kernel reduction (it is equivalent to
`String.startsWith s "__"`: the first two characters are underscores). -/
def isHiddenKey (s : String) : Bool :=
  match s.toList with
  | c1 :: c2 :: _ => c1 = '_' && c2 = '_'
  | _ => false

/-- HashMap insert on a hidden-state map. -/
def insertState (state : List (String × String)) (k v : String) : List (String × String) :=
  match state with
  | [] => [(k, v)]
  | kv :: rest => if kv.1 = k then (k, v) :: rest else kv :: insertState rest k v

/-- Embeds `ASPEmulator::update_state_from_html`
(src/parsing/pjatk/aspemu.rs lines 119 to 136); the same loop appears
verbatim in `Parser::parse_day_raw` (src/parsing/pjatk.rs lines 242 to
256). Each parsed `<input>` is abstracted to its optional `id` and
`value` attributes; an input whose id does not start with `__` is
skipped. -/
def update_state_from_html (state : List (String × String))
    (inputs : List (Option String × Option String)) : List (String × String) :=
  inputs.foldl (fun st inp =>
    match inp.1 with
    | none => st
    | some key =>
      if !(isHiddenKey key) then st
      else
        match inp.2 with
        | none => st
        | some v => insertState st key v) state

/-- Embeds `ASPEmulator::update_state_from_fragment`
(src/parsing/pjatk/aspemu.rs lines 138 to 153): walk the tokens of the
final delta line split on the pipe; a token starting with `__` consumes
the following token as its new value. -/
def update_state_from_fragment (state : List (String × String)) :
    List String → List (String × String)
  | [] => state
  | t :: rest =>
    if isHiddenKey t then
      match rest with
      | [] => state
      | v :: rest2 => update_state_from_fragment (insertState state t v) rest2
    else update_state_from_fragment state rest

/-- One `ASPEmulator::request` call (src/parsing/pjatk/aspemu.rs lines
155 to 205), abstracted to its effect on `self.state`: an `Initial`
request refreshes the state from the response HTML inputs; an `Event`
request posts `state ⊕ event fields ⊕ overrides` built in a local clone
(leaving `self.state` untouched) and then, on a response body, drops the
first line, pops the last line as the state record (an absent record is
`BodyAbrupted`, updating nothing) and applies it split on the pipe. -/
inductive ASPOp
  | initial (inputs : List (Option String × Option String))
  | eventPost (bodyLines : List String)

/-- Effect of one emulator request on the hidden-state map. -/
def asp_request (st : List (String × String)) (op : ASPOp) : List (String × String) :=
  match op with
  | ASPOp.initial inputs => update_state_from_html st inputs
  | ASPOp.eventPost bodyLines =>
    match (bodyLines.drop 1).getLast? with
    | none => st
    | some fragment => update_state_from_fragment st (fragment.splitOn "|")

/-- Every key of the hidden-state map starts with the `__` prefix. -/
def stateKeysHidden (st : List (String × String)) : Bool :=
  st.all (fun kv => isHiddenKey kv.1)

/-- The literal JSON envelope that `Parser::parse_day_raw` writes into
`DataPicker_dateInput_ClientState` (src/parsing/pjatk.rs lines 280 to
284), with the requested ISO date spliced in. -/
def dataPicker_dateInput_ClientState (req : String) : String :=
  "\x7b\"enabled\":true,\"emptyMessage\":\"\",\"validationText\":\"" ++ req ++
  "-00-00-00\",\"valueAsString\":\"" ++ req ++
  "-00-00-00\",\"minDateStr\":\"1980-01-01-00-00-00\",\"maxDateStr\":\"2099-12-31-00-00-00\",\"lastSetTextBoxValue\":\"" ++
  req ++ "\"\x7d"

/-- The `RadScriptManager1_TSM` constant of src/parsing/pjatk.rs. -/
def radScriptManager1_TSM : String :=
  ";;System.Web.Extensions, Version=4.0.0.0, Culture=neutral, PublicKeyToken=31bf3856ad364e35:en-US:ceece802-cb39-4409-a6c9-bfa3b2c8bf10:ea597d4b:b25378d2;Telerik.Web.UI, Version=2018.1.117.40, Culture=neutral, PublicKeyToken=121fae78165ba3d4:en-US:3346c3e6-3c4c-4be3-94e3-1928d6a828a1:16e4e7cd:f7645509:ed16cbdc:88144a7a:33715776:24ee1bba:f46195d3:c128760b:874f8ea2:19620875:cda80b3:383e4ce8:1e771326:2003d0b8:aa288e2d:258f1c72:8674cba1:7c926187:b7778d6c:c08e9f8a:a51ee93e:59462f1:6d43f6d9:2bef5fcc:e06b58fd"

/-- The key/value pairs that `Parser::parse_day_raw`
(src/parsing/pjatk.rs lines 271 to 289) inserts directly into the
persistent `self.state` map (`table_insert!` applied to
`let table = &mut self.state`), in source order, before posting the
date-picker event. -/
def pjatk_overview_overrides (req : String) : List (String × String) :=
  [("RadScriptManager1", "RadAjaxPanel1Panel|DataPicker"),
   ("__EVENTTARGET", "DataPicker"),
   ("__EVENTARGUMENT", ""),
   ("DataPicker", req),
   ("DataPicker$dateInput", req),
   ("DataPicker_dateInput_ClientState", dataPicker_dateInput_ClientState req),
   ("DataPicker_ClientState", ""),
   ("__ASYNCPOST", "true"),
   ("RadAJAXControlID", "RadAjaxPanel1"),
   ("RadScriptManager1_TSM", radScriptManager1_TSM)]

/-- The pjatk `Parser` hidden-state map right after the overview step of
`parse_day_raw`: the initial-GET input refresh (the `__`-filtered loop),
followed by the direct insertion of the override pairs into
`self.state`. -/
def pjatk_parse_day_raw_state (st : List (String × String))
    (inputs : List (Option String × Option String)) (req : String) :
    List (String × String) :=
  (pjatk_overview_overrides req).foldl (fun s kv => insertState s kv.1 kv.2)
    (update_state_from_html st inputs)

/-! ## Claim C8: hidden-state keys -/

/-- Inserting a `__`-prefixed key preserves the key-shape invariant. -/
theorem insertState_keys (st : List (String × String)) (k v : String)
    (hk : isHiddenKey k = true) (hst : stateKeysHidden st = true) :
    stateKeysHidden (insertState st k v) = true := by
  unfold stateKeysHidden at *
  induction st with
  | nil => simp [insertState, hk]
  | cons kv0 rest ih =>
    simp only [List.all_cons, Bool.and_eq_true] at hst
    unfold insertState
    split
    · simp [hk, hst.2]
    · simp [hst.1, ih hst.2]

/-- The HTML refresh inserts only `__`-prefixed keys. -/
theorem update_state_from_html_keys (inputs : List (Option String × Option String)) :
    ∀ st, stateKeysHidden st = true →
      stateKeysHidden (update_state_from_html st inputs) = true := by
  unfold update_state_from_html
  induction inputs with
  | nil => intro st hst; exact hst
  | cons inp rest ih =>
    intro st hst
    rw [List.foldl_cons]
    apply ih
    dsimp only
    match h1 : inp.1 with
    | none => exact hst
    | some key =>
      by_cases hk : isHiddenKey key = true
      · simp only [hk, Bool.not_true, Bool.false_eq_true, if_false]
        match h2 : inp.2 with
        | none => exact hst
        | some v => exact insertState_keys st key v hk hst
      · simp [hk, hst]

/-- The delta-fragment walk inserts only `__`-prefixed keys. -/
theorem update_state_from_fragment_keys (st : List (String × String)) (tokens : List String) :
    stateKeysHidden st = true →
      stateKeysHidden (update_state_from_fragment st tokens) = true := by
  induction st, tokens using update_state_from_fragment.induct with
  | case1 state =>
    intro hst
    exact hst
  | case2 state v hv =>
    intro hst
    rw [update_state_from_fragment.eq_def]
    dsimp only
    rw [if_pos hv]
    exact hst
  | case3 state v hv v1 rest2 ih =>
    intro hst
    rw [update_state_from_fragment.eq_def]
    dsimp only
    rw [if_pos hv]
    exact ih (insertState_keys state v v1 hv hst)
  | case4 state v rest2 hv ih =>
    intro hst
    rw [update_state_from_fragment.eq_def]
    dsimp only
    rw [if_neg hv]
    exact ih hst

/-- One emulator request preserves the key-shape invariant. -/
theorem asp_request_keys (st : List (String × String)) (op : ASPOp)
    (hst : stateKeysHidden st = true) : stateKeysHidden (asp_request st op) = true := by
  cases op with
  | initial inputs => exact update_state_from_html_keys inputs st hst
  | eventPost bodyLines =>
    simp only [asp_request]
    cases h : (bodyLines.drop 1).getLast? with
    | none => exact hst
    | some fragment => exact update_state_from_fragment_keys st (fragment.splitOn "|") hst

/-- Claim C8, counterexample. The pjatk `Parser` (src/parsing/pjatk.rs),
whose persistent `state` map is the hidden-state map it posts on every
request, violates the claimed invariant: `parse_day_raw` inserts the
date-picker override keys (`RadScriptManager1`, `DataPicker`, ...)
directly into `self.state` and they do not start with `__`. Shown on a
concrete run from the empty map. -/
theorem C8_counterexample :
    stateKeysHidden (pjatk_parse_day_raw_state [] [] "2025-01-13") = false := by
  decide

/-- Claim C8, amended: the invariant holds for the `ASPEmulator` portal
client (src/parsing/pjatk/aspemu.rs): starting from its empty state,
after any sequence of requests every key of `hidden_state` starts with
`__`, because the HTML refresh and the delta-fragment walk filter keys on
that prefix and event overrides are applied to a per-request clone. It
does not hold for the inlined pjatk `Parser` client, whose
`parse_day_raw` persists non-`__` override keys in its state map. -/
theorem C8_hidden_state_invariant :
    ∀ ops : List ASPOp, stateKeysHidden (ops.foldl asp_request []) = true := by
  intro ops
  refine foldl_preserves (fun st => stateKeysHidden st = true) _ ?_ _ _ rfl
  intro st op hst
  exact asp_request_keys st op hst

/-! ## ParserManager day selection (src/parsing/manager.rs). `NaiveDate`
is modeled as an integer day number; in the concrete scenario below, day
0 is 2025-01-13, so day 1 is 2025-01-14, day 7 is 2025-01-20 and day 8 is
2025-01-21. -/

/-- Embeds `Data` from src/parsing/manager.rs (the parser cursor row; the
constant `name` field is omitted). -/
structure ParserData where
  last_day_reparsed : Option Int
  last_day_parsed : Option Int
deriving DecidableEq

/-- Embeds `SelectorKind` from src/parsing/manager.rs. -/
inductive SelectorKind
  | ParsingNew
  | Refreshing
deriving DecidableEq

/-- Embeds `DaySelector` from src/parsing/manager.rs. -/
structure DaySelector where
  date : Int
  kind : SelectorKind
deriving DecidableEq

/-- Embeds `ParserManager::get_maximum_day_parsed`
(src/parsing/manager.rs lines 82 to 95): `last_day_parsed` when present,
otherwise the date of the maximal `range.start` in the class store
(`storeMaxDay`, `none` when the store is empty). -/
def get_maximum_day_parsed (data : ParserData) (storeMaxDay : Option Int) : Option Int :=
  match data.last_day_parsed with
  | some date => some date
  | none => storeMaxDay

/-- Embeds `ParserManager::select_date` (src/parsing/manager.rs lines 118
to 159). Forward mode when no maximum is known (target today) or when
`max - today <= days_ahead` (target `today + (max - today) + 1`);
otherwise refresh mode: `last_day_reparsed + 1` when that cursor is set
and below `today + days_ahead`, else today. -/
def select_date (days_ahead today : Int) (data : ParserData) (storeMaxDay : Option Int) :
    DaySelector :=
  match get_maximum_day_parsed data storeMaxDay with
  | some date_max =>
    if date_max - today ≤ days_ahead then
      { date := today + (date_max - today) + 1, kind := SelectorKind.ParsingNew }
    else
      let next_date_reparse :=
        match data.last_day_reparsed with
        | some last_reparsed =>
          if last_reparsed < today + days_ahead then last_reparsed + 1 else today
        | none => today
      { date := next_date_reparse, kind := SelectorKind.Refreshing }
  | none => { date := today, kind := SelectorKind.ParsingNew }

/-- Embeds the cursor update of `ParserManager::parse_next`
(src/parsing/manager.rs lines 169 to 183): the field matching the
selector kind is overwritten with the selected date and the row is
upserted. -/
def parse_next_data (sel : DaySelector) (current : ParserData) : ParserData :=
  match sel.kind with
  | SelectorKind.ParsingNew => { current with last_day_parsed := some sel.date }
  | SelectorKind.Refreshing => { current with last_day_reparsed := some sel.date }

/-- One ParserManager tick restricted to day selection and cursor update:
load the cursor, select the date, parse that day, update the cursor. -/
def manager_tick (days_ahead today : Int) (storeMaxDay : Option Int) (data : ParserData) :
    DaySelector × ParserData :=
  let sel := select_date days_ahead today data storeMaxDay
  (sel, parse_next_data sel data)

/-- Cursor state after `n` ticks, starting from the lazily created empty
cursor row; `storeMaxDays k` is the maximal stored class day when tick
`k` runs (zero-indexed). -/
def manager_run (days_ahead today : Int) (storeMaxDays : Nat → Option Int) :
    Nat → ParserData
  | 0 => { last_day_reparsed := none, last_day_parsed := none }
  | n + 1 =>
    (manager_tick days_ahead today (storeMaxDays n)
      (manager_run days_ahead today storeMaxDays n)).2

/-- Day selector produced by tick `n` (zero-indexed: tick 0 is the first
tick). -/
def manager_tick_selector (days_ahead today : Int) (storeMaxDays : Nat → Option Int)
    (n : Nat) : DaySelector :=
  (manager_tick days_ahead today (storeMaxDays n)
    (manager_run days_ahead today storeMaxDays n)).1

/-! ## Claim C9: forward crawl seed -/

/-- Claim C9, counterexample. With an empty store, `days_ahead = 7` and
today = 2025-01-13 (day 0), the eighth tick selects day 7, that is
2025-01-20, still in forward (ParsingNew) mode, not 2025-01-13 in Refresh
mode as claimed: the guard `max - today <= days_ahead` keeps forward mode
through the ninth tick. -/
theorem C9_counterexample :
    manager_tick_selector 7 0 (fun _ => none) 7
        = { date := 7, kind := SelectorKind.ParsingNew } ∧
    manager_tick_selector 7 0 (fun _ => none) 7
        ≠ { date := 0, kind := SelectorKind.Refreshing } := by
  constructor
  · decide
  · decide

/-- Claim C9, amended: with an empty store at the first tick,
`days_ahead = 7` and today = 2025-01-13 (day 0), tick `n` selects day `n`
in forward mode for the first nine ticks (the first tick selects
2025-01-13, the second 2025-01-14, the ninth 2025-01-21), and the tenth
tick is the first Refresh tick, selecting 2025-01-13 again. The store
contents matter only for the first tick, since afterwards
`last_day_parsed` is set. -/
theorem C9_day_selection (storeMaxDays : Nat → Option Int)
    (h0 : storeMaxDays 0 = none) :
    (∀ n : Nat, n ≤ 8 →
      manager_tick_selector 7 0 storeMaxDays n
        = { date := (n : Int), kind := SelectorKind.ParsingNew }) ∧
    manager_tick_selector 7 0 storeMaxDays 9
        = { date := 0, kind := SelectorKind.Refreshing } := by
  have hrun : ∀ n : Nat, n ≤ 9 →
      manager_run 7 0 storeMaxDays n
        = if n = 0 then { last_day_reparsed := none, last_day_parsed := none }
          else { last_day_reparsed := none, last_day_parsed := some ((n : Int) - 1) } := by
    intro n hn
    induction n with
    | zero => rfl
    | succ m ih =>
      have hm : m ≤ 9 := Nat.le_of_succ_le hn
      rw [manager_run, ih hm]
      by_cases hm0 : m = 0
      · subst hm0
        simp [manager_tick, select_date, get_maximum_day_parsed, parse_next_data, h0]
      · have hmle : (m : Int) - 1 - 0 ≤ 7 := by
          have : m ≤ 8 := by omega
          have : (m : Int) ≤ 8 := by exact_mod_cast this
          omega
        simp only [hm0, if_false, Nat.succ_ne_zero, manager_tick, select_date,
          get_maximum_day_parsed, parse_next_data]
        rw [if_pos hmle]
        simp
  constructor
  · intro n hn
    rw [manager_tick_selector, hrun n (by omega)]
    by_cases hn0 : n = 0
    · subst hn0
      simp [manager_tick, select_date, get_maximum_day_parsed, h0]
    · have hle : (n : Int) - 1 - 0 ≤ 7 := by
        have : (n : Int) ≤ 8 := by exact_mod_cast hn
        omega
      simp only [hn0, if_false, manager_tick, select_date, get_maximum_day_parsed]
      rw [if_pos hle]
      simp
  · rw [manager_tick_selector, hrun 9 (by omega)]
    simp [manager_tick, select_date, get_maximum_day_parsed]

/-- Claim C9, witness for the amended theorem at the concrete scenario of
an everywhere-empty store: the second tick selects 2025-01-14 forward and
the tenth tick selects 2025-01-13 in refresh mode. -/
theorem C9_witness :
    manager_tick_selector 7 0 (fun _ => none) 1
        = { date := 1, kind := SelectorKind.ParsingNew } ∧
    manager_tick_selector 7 0 (fun _ => none) 9
        = { date := 0, kind := SelectorKind.Refreshing } :=
  ⟨(C9_day_selection (fun _ => none) rfl).1 1 (by decide),
   (C9_day_selection (fun _ => none) rfl).2⟩

/-! ## Day reconciliation (src/parsing/manager.rs, replace_or_fill_day,
and src/db.rs, create_range_query) -/

/-- Midnight (00:00:00) of the UTC calendar day containing instant `t`:
`date.with_time(NaiveTime::MIN)` on a `DateTime<Utc>`. -/
def dayStart (t : Int) : Int := t - t.emod 86400

/-- Embeds `create_range_query(date, None)` from src/db.rs lines 116 to
127: the pair of bounds of the query
`range.start > date.with_time(00:00:00) AND range.start < date.with_time(23:59:59)`.
Both comparisons are strict (`$gt` and `$lt`), so the bounds themselves
are outside the window. -/
def create_range_query (date : Int) : Int × Int :=
  (dayStart date, dayStart date + 86399)

/-- Whether a `range.start` instant satisfies the range query. -/
def inRangeQuery (q : Int × Int) (s : Int) : Bool :=
  decide (q.1 < s) && decide (s < q.2)

/-- The range query of the day of class `p` (the first parsed class). -/
def day_query (p : Class) : Int × Int := create_range_query p.range.start

/-- The stored rows satisfying the day query of `p`: what the source
loads into `db_classes_set` before dedup
(src/parsing/manager.rs lines 262 to 268). -/
def db_rows (store : List (OID Class)) (p : Class) : List (OID Class) :=
  store.filter (fun r => inRangeQuery (day_query p) r.data.range.start)

/-- Embeds `add_oid` from src/parsing/manager.rs lines 238 to 243: mint a
fresh storage id per class. Freshness of `ObjectId::new()` is modeled by
consecutive ids from a base the caller places above every existing id. -/
def add_oid : Nat → List Class → List (OID Class)
  | _, [] => []
  | base, c :: cs => ⟨base, c⟩ :: add_oid (base + 1) cs

/-- Insertion loop of a content-keyed `HashSet<OID<Class>>`: the Rust
`Hash`, `PartialEq` and `Eq` impls of `OID<T>` compare only `data`
(src/db.rs lines 91 to 101), so inserting a row whose content is already
present leaves the set unchanged. `seen` is the content set collected so
far. -/
def dedupByContent_aux (seen : List Class) : List (OID Class) → List (OID Class)
  | [] => []
  | r :: rest =>
    if r.data ∈ seen then dedupByContent_aux seen rest
    else r :: dedupByContent_aux (r.data :: seen) rest

/-- A content-keyed `HashSet<OID<Class>>` built by successive inserts:
the set holds the first row of each distinct content, in arrival order
(iteration order of a HashSet is unspecified; first-arrival order is the
fixed linearization used here, and the theorems below do not depend on
it). -/
def dedupByContent (l : List (OID Class)) : List (OID Class) :=
  dedupByContent_aux [] l

/-- Mongo `find_one_and_delete` with a full serialized row (including the
`_id`) as the filter (src/parsing/manager.rs lines 289 to 294): removes
the first row equal to the document. -/
def find_one_and_delete (coll : List (OID Class)) (doc : OID Class) : List (OID Class) :=
  match coll with
  | [] => []
  | r :: rest => if r = doc then rest else r :: find_one_and_delete rest doc

/-- Embeds `ClassDelta` from src/parsing/manager.rs. -/
structure ClassDelta where
  added_classes : List (OID Class)
  removed_classes : List (OID Class)
deriving DecidableEq

/-- The new-minus-db difference of `replace_or_fill_day`: the fresh rows
(deduped by content) whose content is absent from the (deduped) stored
day window. -/
def rofd_to_insert (store : List (OID Class)) (p : Class) (classes : List Class)
    (base : Nat) : List (OID Class) :=
  (dedupByContent (add_oid base classes)).filter
    (fun r => decide (r.data ∉ (dedupByContent (db_rows store p)).map OID.data))

/-- The db-minus-new difference of `replace_or_fill_day`: the stored
day-window rows (deduped by content) whose content is absent from the
parsed day. -/
def rofd_to_remove (store : List (OID Class)) (p : Class) (classes : List Class)
    (base : Nat) : List (OID Class) :=
  (dedupByContent (db_rows store p)).filter
    (fun r => decide (r.data ∉ (dedupByContent (add_oid base classes)).map OID.data))

/-- Embeds `replace_or_fill_day` from src/parsing/manager.rs lines 248 to
299. An empty parsed day returns an empty delta and writes nothing.
Otherwise: load the stored rows whose `range.start` satisfies
`create_range_query(first.range.start, None)` into a content-keyed set;
build the parsed set with fresh ids; insert the new-minus-db difference
(`insert_many`, appended, guarded by non-emptiness); delete each
db-minus-new row by its full document; return both differences as the
delta. All writes happen in one committed transaction. -/
def replace_or_fill_day (store : List (OID Class)) (classes : List Class) (base : Nat) :
    ClassDelta × List (OID Class) :=
  match classes with
  | [] => ({ added_classes := [], removed_classes := [] }, store)
  | first :: rest =>
    let diff_to_insert := rofd_to_insert store first (first :: rest) base
    let store1 := if diff_to_insert.isEmpty then store else store ++ diff_to_insert
    let diff_to_remove := rofd_to_remove store first (first :: rest) base
    let store2 := diff_to_remove.foldl find_one_and_delete store1
    ({ added_classes := diff_to_insert, removed_classes := diff_to_remove }, store2)

/-! ## Support lemmas for the reconciler -/

/-- Minting ids does not change the content list. -/
theorem add_oid_map_data (base : Nat) (l : List Class) :
    (add_oid base l).map OID.data = l := by
  induction l generalizing base with
  | nil => rfl
  | cons c cs ih => simp [add_oid, ih]

/-- Every minted row has an id at or above the base. -/
theorem add_oid_id_ge (base : Nat) (l : List Class) :
    ∀ r ∈ add_oid base l, base ≤ r.id := by
  induction l generalizing base with
  | nil => intro r hr; cases hr
  | cons c cs ih =>
    intro r hr
    rw [add_oid] at hr
    rcases List.mem_cons.mp hr with hr | hr
    · subst hr; exact Nat.le_refl _
    · exact Nat.le_of_succ_le (ih (base + 1) r hr)

/-- Minted ids are pairwise distinct. -/
theorem add_oid_map_id_nodup (base : Nat) (l : List Class) :
    ((add_oid base l).map OID.id).Nodup := by
  induction l generalizing base with
  | nil => exact List.nodup_nil
  | cons c cs ih =>
    rw [add_oid, List.map_cons]
    refine List.nodup_cons.mpr ⟨?_, ih (base + 1)⟩
    intro hmem
    obtain ⟨r, hr, hid⟩ := List.mem_map.mp hmem
    have hge := add_oid_id_ge (base + 1) cs r hr
    simp only [OID.mk.injEq] at hid
    omega

/-- The insertion loop yields a sublist of its input. -/
theorem dedup_aux_sublist (l : List (OID Class)) :
    ∀ seen : List Class, List.Sublist (dedupByContent_aux seen l) l := by
  induction l with
  | nil =>
    intro seen
    rw [dedupByContent_aux]
  | cons r rest ih =>
    intro seen
    rw [dedupByContent_aux]
    by_cases hr : r.data ∈ seen
    · rw [if_pos hr]
      exact (ih seen).cons r
    · rw [if_neg hr]
      exact (ih (r.data :: seen)).cons₂ r

/-- Content dedup yields a sublist. -/
theorem dedupByContent_sublist (l : List (OID Class)) :
    List.Sublist (dedupByContent l) l :=
  dedup_aux_sublist l []

/-- Contents kept by the insertion loop: those of the input that are not
already in the seen set. -/
theorem dedup_aux_mem_data (l : List (OID Class)) :
    ∀ (seen : List Class) (d : Class),
      d ∈ (dedupByContent_aux seen l).map OID.data
        ↔ d ∉ seen ∧ d ∈ l.map OID.data := by
  induction l with
  | nil =>
    intro seen d
    simp [dedupByContent_aux]
  | cons r rest ih =>
    intro seen d
    rw [dedupByContent_aux]
    by_cases hr : r.data ∈ seen
    · rw [if_pos hr, ih seen d]
      simp only [List.map_cons, List.mem_cons]
      constructor
      · rintro ⟨h1, h2⟩
        exact ⟨h1, Or.inr h2⟩
      · rintro ⟨h1, h2 | h2⟩
        · exact absurd (h2 ▸ hr) h1
        · exact ⟨h1, h2⟩
    · rw [if_neg hr]
      simp only [List.map_cons, List.mem_cons, ih (r.data :: seen) d]
      constructor
      · rintro (h | ⟨h1, h2⟩)
        · subst h
          exact ⟨hr, Or.inl rfl⟩
        · rw [not_or] at h1
          exact ⟨h1.2, Or.inr h2⟩
      · rintro ⟨h1, h | h2⟩
        · exact Or.inl h
        · by_cases hd : d = r.data
          · exact Or.inl hd
          · refine Or.inr ⟨?_, h2⟩
            rw [not_or]
            exact ⟨hd, h1⟩

/-- Content dedup preserves the content set. -/
theorem dedupByContent_mem_data (l : List (OID Class)) (d : Class) :
    d ∈ (dedupByContent l).map OID.data ↔ d ∈ l.map OID.data := by
  rw [dedupByContent, dedup_aux_mem_data]
  simp

/-- On a list whose contents are pairwise distinct and disjoint from the
seen set, the insertion loop is the identity. -/
theorem dedup_aux_eq_self (l : List (OID Class)) :
    ∀ seen : List Class, (l.map OID.data).Nodup → (∀ x ∈ l, x.data ∉ seen) →
      dedupByContent_aux seen l = l := by
  induction l with
  | nil =>
    intro seen _ _
    rw [dedupByContent_aux]
  | cons r rest ih =>
    intro seen hnd hseen
    rw [List.map_cons, List.nodup_cons] at hnd
    rw [dedupByContent_aux, if_neg (hseen r (List.mem_cons_self r rest))]
    congr 1
    refine ih (r.data :: seen) hnd.2 ?_
    intro x hx hmem
    rcases List.mem_cons.mp hmem with h | h
    · exact hnd.1 (h ▸ List.mem_map_of_mem OID.data hx)
    · exact hseen x (List.mem_cons_of_mem r hx) h

/-- On a list whose contents are already pairwise distinct, dedup is the
identity (as for the stored day under the uniqueness invariant). -/
theorem dedupByContent_eq_self (l : List (OID Class))
    (h : (l.map OID.data).Nodup) : dedupByContent l = l := by
  rw [dedupByContent]
  refine dedup_aux_eq_self l [] h ?_
  intro x _ hmem
  exact List.not_mem_nil x.data hmem

/-- On a duplicate-free collection, deleting by full document is
filtering that document out. -/
theorem find_one_and_delete_eq_filter (coll : List (OID Class)) (doc : OID Class)
    (h : coll.Nodup) :
    find_one_and_delete coll doc = coll.filter (fun x => decide (x ≠ doc)) := by
  induction coll with
  | nil => rfl
  | cons r rest ih =>
    have hnd := List.nodup_cons.mp h
    rw [find_one_and_delete]
    by_cases hr : r = doc
    · subst hr
      rw [if_pos rfl, List.filter_cons_of_neg (by simp)]
      have hself : rest.filter (fun x => decide (x ≠ r)) = rest := by
        refine List.filter_eq_self.mpr ?_
        intro x hx
        have hxr : x ≠ r := fun hc => hnd.1 (hc ▸ hx)
        simpa using hxr
      exact hself.symm
    · rw [if_neg hr, List.filter_cons_of_pos (by simpa using hr), ih hnd.2]

/-- Iterated full-document deletion over a duplicate-free collection
removes exactly the listed rows. -/
theorem foldl_find_one_and_delete (t : List (OID Class)) :
    ∀ coll : List (OID Class), coll.Nodup →
      t.foldl find_one_and_delete coll = coll.filter (fun x => decide (x ∉ t)) := by
  induction t with
  | nil =>
    intro coll _
    rw [List.foldl_nil]
    refine (List.filter_eq_self.mpr ?_).symm
    intro x _
    simp
  | cons a t' ih =>
    intro coll hcoll
    rw [List.foldl_cons, find_one_and_delete_eq_filter coll a hcoll,
      ih _ (hcoll.filter _), List.filter_filter]
    refine List.filter_congr ?_
    intro x _
    by_cases h1 : x = a <;> by_cases h2 : x ∈ t' <;> simp [h1, h2]

/-- Unfolding of `replace_or_fill_day` on a non-empty parsed day: the
insert-guard collapses because appending nothing changes nothing. -/
theorem replace_or_fill_day_cons (store : List (OID Class)) (first : Class)
    (rest : List Class) (base : Nat) :
    replace_or_fill_day store (first :: rest) base
      = ({ added_classes := rofd_to_insert store first (first :: rest) base,
           removed_classes := rofd_to_remove store first (first :: rest) base },
         (rofd_to_remove store first (first :: rest) base).foldl find_one_and_delete
           (store ++ rofd_to_insert store first (first :: rest) base)) := by
  simp only [replace_or_fill_day]
  by_cases he : (rofd_to_insert store first (first :: rest) base).isEmpty
  · rw [if_pos he, List.isEmpty_iff.mp he, List.append_nil]
  · rw [if_neg he]

/-! ## Claim C1: reconciliation and idempotence -/

/-- Claim C1, counterexample class: its `range.start` is exactly midnight
(86400 is 1970-01-02T00:00:00Z), the lower bound of
`create_range_query`, which the query excludes (`$gt` is strict). -/
def C1class : Class :=
  { class_id := "c", name := "N", code := "K", kind := ClassKind.Lecture,
    lecturer := "L", range := { start := 86400, «end» := 90000 },
    place := ClassPlace.Online, groups := [⟨"G"⟩] }

/-- Claim C1, counterexample. The first reconciliation of the single-class
day stores the class; re-running against the same parsed list and the
resulting store does not yield an empty delta: the stored row starts
exactly at the window bound, the strict day query misses it, and the
class is inserted a second time. -/
theorem C1_counterexample :
    (replace_or_fill_day [] [C1class] 0).2 = [⟨0, C1class⟩] ∧
    (replace_or_fill_day (replace_or_fill_day [] [C1class] 0).2
        [C1class] 1).1.added_classes ≠ [] := by
  constructor
  · decide
  · decide

/-- Claim C1, amended. For a non-empty parsed day `p :: ps` whose classes
all start strictly inside the open day window queried by the code
(`create_range_query` uses strict bounds, so a class starting exactly at
00:00:00 or at 23:59:59 falls outside it), against a store with pairwise
distinct ids, all below the fresh-id base, whose rows inside that window
have pairwise distinct contents (the persisted-uniqueness invariant):
after `replace_or_fill_day` commits, the contents of the stored rows
satisfying the day query equal the content set of the parsed day, and a
second run against the same parsed list returns an empty delta and leaves
the store exactly unchanged (no inserts, no deletes). -/
theorem C1_reconcile_idempotent
    (store : List (OID Class)) (p : Class) (ps : List Class) (base base2 : Nat)
    (hwin : ∀ c ∈ p :: ps, inRangeQuery (day_query p) c.range.start = true)
    (hids : (store.map OID.id).Nodup)
    (hbase : ∀ r ∈ store, r.id < base)
    (huniq : ((db_rows store p).map OID.data).Nodup) :
    ((db_rows (replace_or_fill_day store (p :: ps) base).2 p).map OID.data).toFinset
        = (p :: ps).toFinset ∧
    (replace_or_fill_day (replace_or_fill_day store (p :: ps) base).2 (p :: ps) base2).1
        = { added_classes := [], removed_classes := [] } ∧
    (replace_or_fill_day (replace_or_fill_day store (p :: ps) base).2 (p :: ps) base2).2
        = (replace_or_fill_day store (p :: ps) base).2 := by
  have hstore_nodup : store.Nodup := List.Nodup.of_map _ hids
  have hdb_dedup : dedupByContent (db_rows store p) = db_rows store p :=
    dedupByContent_eq_self _ huniq
  have hins_sub : List.Sublist (rofd_to_insert store p (p :: ps) base)
      (add_oid base (p :: ps)) :=
    (List.filter_sublist _).trans (dedupByContent_sublist _)
  have hins_nodup : (rofd_to_insert store p (p :: ps) base).Nodup :=
    List.Nodup.sublist hins_sub (List.Nodup.of_map OID.id (add_oid_map_id_nodup base (p :: ps)))
  have hdisj : store.Disjoint (rofd_to_insert store p (p :: ps) base) := by
    intro a ha hb
    have h1 := hbase a ha
    have h2 := add_oid_id_ge base (p :: ps) a (hins_sub.subset hb)
    omega
  have hs1_nodup : (store ++ rofd_to_insert store p (p :: ps) base).Nodup :=
    List.nodup_append.mpr ⟨hstore_nodup, hins_nodup, hdisj⟩
  have hNdata : ∀ d, d ∈ (dedupByContent (add_oid base (p :: ps))).map OID.data
      ↔ d ∈ (p :: ps) := by
    intro d
    rw [dedupByContent_mem_data, add_oid_map_data]
  have hNdata2 : ∀ d, d ∈ (dedupByContent (add_oid base2 (p :: ps))).map OID.data
      ↔ d ∈ (p :: ps) := by
    intro d
    rw [dedupByContent_mem_data, add_oid_map_data]
  rw [replace_or_fill_day_cons store p ps base]
  dsimp only
  set s2 : List (OID Class) :=
    (rofd_to_remove store p (p :: ps) base).foldl find_one_and_delete
      (store ++ rofd_to_insert store p (p :: ps) base) with hs2def
  have hfilter : s2 = (store ++ rofd_to_insert store p (p :: ps) base).filter
      (fun x => decide (x ∉ rofd_to_remove store p (p :: ps) base)) := by
    rw [hs2def]
    exact foldl_find_one_and_delete _ _ hs1_nodup
  have hA : ((db_rows s2 p).map OID.data).toFinset = (p :: ps).toFinset := by
    ext d
    simp only [List.mem_toFinset, List.mem_map]
    constructor
    · rintro ⟨r, hr, rfl⟩
      rw [db_rows, List.mem_filter, hfilter, List.mem_filter] at hr
      obtain ⟨⟨hr_s1, hr_notrem⟩, hrW⟩ := hr
      have hnotrem : r ∉ rofd_to_remove store p (p :: ps) base :=
        of_decide_eq_true hr_notrem
      rcases List.mem_append.mp hr_s1 with hr_store | hr_ins
      · have hr_db : r ∈ db_rows store p := List.mem_filter.mpr ⟨hr_store, hrW⟩
        by_contra hnotP
        apply hnotrem
        rw [rofd_to_remove, hdb_dedup]
        refine List.mem_filter.mpr ⟨hr_db, ?_⟩
        simp only [decide_eq_true_eq]
        intro hmem
        exact hnotP ((hNdata r.data).mp hmem)
      · have hmem := List.mem_map_of_mem OID.data (hins_sub.subset hr_ins)
        rw [add_oid_map_data] at hmem
        exact hmem
    · intro hd
      by_cases hdb : d ∈ (db_rows store p).map OID.data
      · obtain ⟨rd, hrd, rfl⟩ := List.mem_map.mp hdb
        refine ⟨rd, ?_, rfl⟩
        rw [db_rows, List.mem_filter, hfilter, List.mem_filter]
        have hrd_store : rd ∈ store := (List.mem_filter.mp hrd).1
        have hrdW := (List.mem_filter.mp hrd).2
        refine ⟨⟨List.mem_append.mpr (Or.inl hrd_store), ?_⟩, hrdW⟩
        simp only [decide_eq_true_eq]
        intro hrem
        rw [rofd_to_remove, hdb_dedup] at hrem
        have hpred := (List.mem_filter.mp hrem).2
        simp only [decide_eq_true_eq] at hpred
        exact hpred ((hNdata rd.data).mpr hd)
      · have hdN : d ∈ (dedupByContent (add_oid base (p :: ps))).map OID.data :=
          (hNdata d).mpr hd
        obtain ⟨r, hrN, rfl⟩ := List.mem_map.mp hdN
        have hr_ins : r ∈ rofd_to_insert store p (p :: ps) base := by
          rw [rofd_to_insert, hdb_dedup]
          refine List.mem_filter.mpr ⟨hrN, ?_⟩
          simpa using hdb
        refine ⟨r, ?_, rfl⟩
        rw [db_rows, List.mem_filter, hfilter, List.mem_filter]
        refine ⟨⟨List.mem_append.mpr (Or.inr hr_ins), ?_⟩, hwin r.data hd⟩
        simp only [decide_eq_true_eq]
        intro hrem
        rw [rofd_to_remove, hdb_dedup] at hrem
        have hr_db := (List.mem_filter.mp hrem).1
        have hr_store : r ∈ store := (List.mem_filter.mp hr_db).1
        have h1 := hbase r hr_store
        have h2 := add_oid_id_ge base (p :: ps) r ((dedupByContent_sublist _).subset hrN)
        omega
  have hP_iff : ∀ d, d ∈ (db_rows s2 p).map OID.data ↔ d ∈ (p :: ps) := by
    intro d
    rw [← List.mem_toFinset, hA, List.mem_toFinset]
  have hins2 : rofd_to_insert s2 p (p :: ps) base2 = [] := by
    rw [rofd_to_insert]
    refine List.filter_eq_nil_iff.mpr ?_
    intro r hr
    simp only [decide_eq_true_eq, Decidable.not_not]
    rw [dedupByContent_mem_data]
    refine (hP_iff r.data).mpr ?_
    have hmem := List.mem_map_of_mem OID.data ((dedupByContent_sublist _).subset hr)
    rw [add_oid_map_data] at hmem
    exact hmem
  have hrem2 : rofd_to_remove s2 p (p :: ps) base2 = [] := by
    rw [rofd_to_remove]
    refine List.filter_eq_nil_iff.mpr ?_
    intro r hr
    simp only [decide_eq_true_eq, Decidable.not_not]
    refine (hNdata2 r.data).mpr ?_
    refine (hP_iff r.data).mp ?_
    exact List.mem_map_of_mem OID.data ((dedupByContent_sublist _).subset hr)
  rw [replace_or_fill_day_cons s2 p ps base2]
  dsimp only
  refine ⟨hA, ?_, ?_⟩
  · rw [hins2, hrem2]
  · rw [hins2, hrem2, List.append_nil, List.foldl_nil]

/-- Claim C1, witness class for the amended theorem: starts strictly
inside its day window (1000 seconds past midnight). -/
def C1winClass : Class :=
  { class_id := "w", name := "W", code := "Q", kind := ClassKind.Seminar,
    lecturer := "M", range := { start := 1000, «end» := 2000 },
    place := ClassPlace.OnSite "A1", groups := [⟨"H"⟩] }

/-- Claim C1, witness: the amended theorem applied to the empty store and
the one-class day starting strictly inside the window. -/
theorem C1_witness :
    ((db_rows (replace_or_fill_day [] [C1winClass] 0).2 C1winClass).map OID.data).toFinset
        = ([C1winClass] : List Class).toFinset ∧
    (replace_or_fill_day (replace_or_fill_day [] [C1winClass] 0).2 [C1winClass] 1).1
        = { added_classes := [], removed_classes := [] } ∧
    (replace_or_fill_day (replace_or_fill_day [] [C1winClass] 0).2 [C1winClass] 1).2
        = (replace_or_fill_day [] [C1winClass] 0).2 :=
  C1_reconcile_idempotent [] C1winClass [] 0 1 (by decide) (by decide)
    (by intro r hr; cases hr) (by decide)

end PjatkBot
